import Mathlib

/-!
Verification of the simple_lisp compiler/VM (src/simple_lisp.cpp) against its
natural-language specification.  The C++ source is shallowly embedded below:
each Lean definition is a direct translation of the function or code block of
the same name in the source file; source line numbers are cited in the doc
comments.  Machine bytes are modelled as `Nat`, the 32-bit `float` payload of
a number value is carried as its bit pattern (`UInt32`, never interpreted —
no claim here depends on float arithmetic), heap pointers are modelled as
ids (`Nat`) and fixed-size C arrays as total functions together with the
capacity constant `MaxVars`.
-/

set_option maxRecDepth 4000

namespace SimpleLisp

/-- Source line 187: `#define MaxVars 255`.  This single constant is the
declared size of both a frame's variable array (`sl_value Vars[MaxVars]`,
line 190) and the VM operand stack (`sl_value Stack[MaxVars]`, line 202). -/
def MaxVars : Nat := 255

/-- Declared element count of `sl_call_frame::Vars` (source line 190). -/
def frameVarsCapacity : Nat := MaxVars

/-- Declared element count of `sl_vm::Stack` (source line 202). -/
def vmStackCapacity : Nat := MaxVars

/-- Source lines 137-148 (`sl_value_type`) and 172-185 (`sl_value`): a tagged
value.  The union payloads are modelled as: `Bool` a truth bit, `Number` the
float's 32-bit pattern, and each pointer variant (`sl_string *`, `sl_func *`,
`sl_native *`, `sl_coroutine *`, `void *`) an id.  For `String` the id is the
index of the interned `sl_string` in the script's `Strings` table (the only
string objects the modelled instructions create, via `LoadString`); for
`Func` it is the index into the script's `Funcs` table. -/
inductive sl_value where
  | Nil : sl_value
  | Bool (b : Bool) : sl_value
  | Number (bits : UInt32) : sl_value
  | String (sid : Nat) : sl_value
  | Func (fid : Nat) : sl_value
  | NativeFunc (nid : Nat) : sl_value
  | Coroutine (cid : Nat) : sl_value
  | Custom (pid : Nat) : sl_value
deriving DecidableEq

/-- Source lines 52-67: the opcode enum.  Opcodes live in code buffers as raw
bytes, so each is its enum value as a `Nat`. -/
def OpCode_Halt : Nat := 0

/-- Opcode `Defun` (enum value 1, source line 55). -/
def OpCode_Defun : Nat := 1

/-- Opcode `Def` (enum value 2, source line 56). -/
def OpCode_Def : Nat := 2

/-- Opcode `Defonce` (enum value 3, source line 57). -/
def OpCode_Defonce : Nat := 3

/-- Opcode `Set` (enum value 4, source line 58). -/
def OpCode_Set : Nat := 4

/-- Opcode `FuncCall` (enum value 5, source line 59). -/
def OpCode_FuncCall : Nat := 5

/-- Opcode `LoadBool` (enum value 6, source line 60). -/
def OpCode_LoadBool : Nat := 6

/-- Opcode `LoadString` (enum value 7, source line 61). -/
def OpCode_LoadString : Nat := 7

/-- Opcode `LoadNumber` (enum value 8, source line 62). -/
def OpCode_LoadNumber : Nat := 8

/-- Opcode `LoadSymbol` (enum value 9, source line 63). -/
def OpCode_LoadSymbol : Nat := 9

/-- Opcode `LoadFunc` (enum value 10, source line 64). -/
def OpCode_LoadFunc : Nat := 10

/-- Opcode `Return` (enum value 11, source line 65). -/
def OpCode_Return : Nat := 11

/-- Opcode `Pop` (enum value 12, source line 66). -/
def OpCode_Pop : Nat := 12

/-- Source lines 119-126 (`sl_func`): a function definition.  `Code` is the
byte buffer (`sl_code` flattened to its byte list), `StringIndex` the interned
index of its name, `Args` the formal-parameter interned indices (the source
stores them in `int Args[8]` with a separate `ArgCount`; the VM reads only
`ArgCount`). -/
structure sl_func where
  Code : List Nat
  StringIndex : Nat
  ArgCount : Nat
  Args : List Nat

/-- Source lines 128-135 (`sl_script`): the compilation artifact.  An interned
`sl_string` is represented by its character content. -/
structure sl_script where
  Strings : List String
  Numbers : List UInt32
  Funcs : List sl_func
  Code : List Nat

/-- Source lines 188-194 (`sl_call_frame`).  `Vars` models the 255-slot array
`sl_value Vars[MaxVars]` as a total function (only indices below `MaxVars`
are meaningful); `CodeId`/`CodePtr` model the raw `uint8 *CodePtr` as a code
buffer identifier (`none` = the script's top-level code, `some i` =
`Funcs[i].Code`) plus a byte offset; `Coroutine` models the back-link pointer
as an id.  `Defined` is ghost instrumentation with no counterpart in the
source: it records the slots written so far by a defining operation (`Def`,
`Defonce`, `Set`, `Defun`); the executable state never reads it.  The parent
link is represented positionally: a frame chain is a `List sl_call_frame`
whose head is the innermost frame. -/
structure sl_call_frame where
  Vars : Nat → sl_value
  Defined : Nat → Bool
  CodeId : Option Nat
  CodePtr : Nat
  Coroutine : Option Nat

/-- Source lines 196-206 (`sl_vm`).  `Globals` models the
`unordered_map<std::string, sl_value>`; `Stack` models the operand array
plus `StackTop` as the list of live slots, head = top (slots at and above
`StackTop` are never read by the source, see `StackPush`/`StackPop`);
`Frames` is the chain hanging off `CurrentFrame` (head = current);
`StrRefCount` gives each heap string's `RefCount` field (source line 110). -/
structure sl_vm where
  Globals : String → Option sl_value
  Stack : List sl_value
  Frames : List sl_call_frame
  StrRefCount : Nat → Int

/-- Source lines 897-900 (`StackPush`): `Vm->Stack[Vm->StackTop++] = Value`. -/
def StackPush (Value : sl_value) (s : List sl_value) : List sl_value :=
  Value :: s

/-- Source lines 902-910 (`StackPop`): returns the top slot and decrements
`StackTop` when `StackTop > 0`, otherwise returns a default-constructed
(`Nil`) value leaving the stack untouched. -/
def StackPop (s : List sl_value) : sl_value × List sl_value :=
  match s with
  | v :: rest => (v, rest)
  | [] => (sl_value.Nil, [])

/-- Source lines 805-816 (`IncRef`): only `String` values carry a refcount
among the types the modelled instructions produce; `RefCount++`. -/
def IncRef (Value : sl_value) (h : Nat → Int) : Nat → Int :=
  match Value with
  | sl_value.String sid => Function.update h sid (h sid + 1)
  | _ => h

/-- Source lines 831-842 inside `DecRef`: `Ref->RefCount--` followed by the
clamp `if (RefCount <= 0) RefCount = 0` (the pool return `FreeObject` is
heap-allocator bookkeeping, outside this model). -/
def DecRefCount (rc : Int) : Int :=
  if rc - 1 ≤ 0 then 0 else rc - 1

/-- Source lines 818-843 (`DecRef`): decrement (and clamp) the refcount of a
`String` value; all other tags are untouched. -/
def DecRef (Value : sl_value) (h : Nat → Int) : Nat → Int :=
  match Value with
  | sl_value.String sid => Function.update h sid (DecRefCount (h sid))
  | _ => h

/-- Source lines 888-895 (`PushCallFrame`): allocate a zero-initialised frame
(`new sl_call_frame` runs the member initialisers: every `Vars` slot is a
default `Nil` value), point it at the start of `Code`, link it to the prior
current frame and to the optional coroutine.  The ghost `Defined` set starts
empty. -/
def PushCallFrame (CodeId : Option Nat) (Co : Option Nat)
    (frames : List sl_call_frame) : List sl_call_frame :=
  { Vars := fun _ => sl_value.Nil, Defined := fun _ => false, CodeId := CodeId, CodePtr := 0, Coroutine := Co } :: frames

/-- Write `v` into slot `i` of a frame (`Frame->Vars[i] = v`), recording the
write in the ghost `Defined` set. -/
def setVar (f : sl_call_frame) (i : Nat) (v : sl_value) : sl_call_frame :=
  { f with Vars := Function.update f.Vars i v, Defined := Function.update f.Defined i true }

/-- Resolve a frame's code-buffer identifier to the byte list it points into:
`none` is `Script->Code`, `some i` is `Script->Funcs[i]->Code`. -/
def codeOf (sc : sl_script) : Option Nat → Option (List Nat)
  | none => some sc.Code
  | some i => (sc.Funcs.get? i).map sl_func.Code

/-- Source lines 1013-1040, the `OpCode_LoadSymbol` walk: starting at the
current frame and following `Parent` links, every frame whose `Vars[Arg]` is
non-Nil gets its value pushed (the loop does not stop at the first match),
and `Found` records whether any push happened. -/
def LoadSymbolWalk (Arg : Nat) : List sl_call_frame → List sl_value →
    List sl_value × Bool
  | [], s => (s, false)
  | LookFrame :: rest, s =>
    if LookFrame.Vars Arg = sl_value.Nil then
      LoadSymbolWalk Arg rest s
    else
      let r := LoadSymbolWalk Arg rest (StackPush (LookFrame.Vars Arg) s)
      (r.1, true)

/-- Source lines 955-974, the `OpCode_Set` walk: at every frame on the chain
whose `Vars[Arg]` is non-Nil, pop a value and store it there (again the loop
does not stop at the first match); `Set` records whether any write happened. -/
def SetWalk (Arg : Nat) : List sl_call_frame → List sl_value →
    List sl_call_frame × List sl_value × Bool
  | [], s => ([], s, false)
  | LookFrame :: rest, s =>
    if LookFrame.Vars Arg = sl_value.Nil then
      let r := SetWalk Arg rest s
      (LookFrame :: r.1, r.2.1, r.2.2)
    else
      let p := StackPop s
      let r := SetWalk Arg rest p.2
      (setVar LookFrame Arg p.1 :: r.1, r.2.1, true)

/-- Source lines 1053-1057 inside `OpCode_FuncCall`: `for (i = Arg-1; i >= 0;
--i) Args[i] = StackPop(Vm)` — pop `n` values, the first pop landing in the
last slot, so the returned list holds `Args[0] … Args[n-1]` in index order. -/
def PopArgsLoop : Nat → List sl_value → List sl_value × List sl_value
  | 0, s => ([], s)
  | n + 1, s =>
    let p := StackPop s
    let r := PopArgsLoop n p.2
    (r.1 ++ [p.1], r.2)

/-- Source lines 1067-1077 inside `OpCode_FuncCall`: `for (i = 0; i <
Func->ArgCount; i++) StackPush(i >= Arg ? Nil : Args[i])`.  Pushing ascending
indices means index `k-1` is pushed last (ends on top); reading past the end
of `Args` (`i >= Arg`) pushes `Nil`. -/
def PushArgsLoop (Args : List sl_value) : Nat → List sl_value → List sl_value
  | 0, s => s
  | k + 1, s => StackPush (Args.getD k sl_value.Nil) (PushArgsLoop Args k s)

/-- One outcome of the interpreter loop body: continue with the next
instruction, or leave the loop (the `goto end` on `Halt` and on `Return`
under stop-on-return). -/
inductive StepOut where
  | next (vm : sl_vm)
  | halt (vm : sl_vm)

/-- The VM state carried by either `StepOut` outcome. -/
def outVm : StepOut → sl_vm
  | StepOut.next vm => vm
  | StepOut.halt vm => vm

/-- Case `OpCode_Def` of the dispatch switch (source lines 940-944):
`Frame->Vars[Arg] = StackPop(Vm)`. -/
def ExecDef (vm' : sl_vm) (Frame' : sl_call_frame)
    (Parents : List sl_call_frame) (Arg : Nat) : Option StepOut :=
  let p := StackPop vm'.Stack
  some (StepOut.next { vm' with Stack := p.2, Frames := setVar Frame' Arg p.1 :: Parents })

/-- Case `OpCode_Defonce` (source lines 946-953): as `Def`, but only when
`Vars[Arg]` is still Nil. -/
def ExecDefonce (vm' : sl_vm) (Frame' : sl_call_frame)
    (Parents : List sl_call_frame) (Arg : Nat) : Option StepOut :=
  if Frame'.Vars Arg = sl_value.Nil then
    let p := StackPop vm'.Stack
    some (StepOut.next { vm' with Stack := p.2, Frames := setVar Frame' Arg p.1 :: Parents })
  else
    some (StepOut.next vm')

/-- Case `OpCode_Set` (source lines 955-974): walk the chain writing at
every frame with a non-Nil slot; if none was written, pop once into
`Globals` under the interned name. -/
def ExecSet (sc : sl_script) (vm' : sl_vm) (Arg : Nat) : Option StepOut :=
  let r := SetWalk Arg vm'.Frames vm'.Stack
  if r.2.2 then
    some (StepOut.next { vm' with Frames := r.1, Stack := r.2.1 })
  else
    match sc.Strings.get? Arg with
    | none => none
    | some name =>
      let p := StackPop vm'.Stack
      some (StepOut.next { vm' with Stack := p.2, Globals := Function.update vm'.Globals name (some p.1) })

/-- Case `OpCode_Defun` (source lines 976-983):
`Frame->Vars[Func->StringIndex]` receives the `Func` value. -/
def ExecDefun (sc : sl_script) (vm' : sl_vm) (Frame' : sl_call_frame)
    (Parents : List sl_call_frame) (Arg : Nat) : Option StepOut :=
  match sc.Funcs.get? Arg with
  | none => none
  | some Func =>
    some (StepOut.next
      { vm' with Frames := setVar Frame' Func.StringIndex (sl_value.Func Arg) :: Parents })

/-- Case `OpCode_LoadBool` (source lines 985-992): `Value.Bool = Arg == 1`. -/
def ExecLoadBool (vm' : sl_vm) (Arg : Nat) : Option StepOut :=
  some (StepOut.next { vm' with Stack := StackPush (sl_value.Bool (Arg == 1)) vm'.Stack })

/-- Case `OpCode_LoadNumber` (source lines 994-1001). -/
def ExecLoadNumber (sc : sl_script) (vm' : sl_vm) (Arg : Nat) : Option StepOut :=
  match sc.Numbers.get? Arg with
  | none => none
  | some num =>
    some (StepOut.next { vm' with Stack := StackPush (sl_value.Number num) vm'.Stack })

/-- Case `OpCode_LoadString` (source lines 1003-1011): point at
`Script->Strings[Arg]`, `IncRef`, push. -/
def ExecLoadString (sc : sl_script) (vm' : sl_vm) (Arg : Nat) : Option StepOut :=
  if Arg < sc.Strings.length then
    some (StepOut.next
      { vm' with Stack := StackPush (sl_value.String Arg) vm'.Stack,
                 StrRefCount := IncRef (sl_value.String Arg) vm'.StrRefCount })
  else none

/-- Case `OpCode_LoadSymbol` (source lines 1013-1040): walk the chain
pushing every non-Nil match; if none, push the global (or Nil). -/
def ExecLoadSymbol (sc : sl_script) (vm' : sl_vm) (Arg : Nat) : Option StepOut :=
  let r := LoadSymbolWalk Arg vm'.Frames vm'.Stack
  if r.2 then
    some (StepOut.next { vm' with Stack := r.1 })
  else
    match sc.Strings.get? Arg with
    | none => none
    | some name =>
      match vm'.Globals name with
      | some v => some (StepOut.next { vm' with Stack := StackPush v vm'.Stack })
      | none => some (StepOut.next { vm' with Stack := StackPush sl_value.Nil vm'.Stack })

/-- Case `OpCode_LoadFunc` (source lines 1042-1049). -/
def ExecLoadFunc (sc : sl_script) (vm' : sl_vm) (Arg : Nat) : Option StepOut :=
  match sc.Funcs.get? Arg with
  | none => none
  | some _ =>
    some (StepOut.next { vm' with Stack := StackPush (sl_value.Func Arg) vm'.Stack })

/-- Case `OpCode_FuncCall` (source lines 1051-1081): pop the arguments and
the callee; a user function gets its (padded/truncated) arguments pushed
back and a fresh frame; a native callee is outside the instruction-level
model (`none`); any other callee tag falls through with just the pops. -/
def ExecFuncCall (sc : sl_script) (vm' : sl_vm) (Arg : Nat) : Option StepOut :=
  let pa := PopArgsLoop Arg vm'.Stack
  let pf := StackPop pa.2
  match pf.1 with
  | sl_value.NativeFunc _ => none
  | sl_value.Func fi =>
    (match sc.Funcs.get? fi with
     | none => none
     | some Func =>
       some (StepOut.next
         { vm' with Stack := PushArgsLoop pa.1 Func.ArgCount pf.2,
                    Frames := PushCallFrame (some fi) none vm'.Frames }))
  | _ => some (StepOut.next { vm' with Stack := pf.2 })

/-- Case `OpCode_Return` (source lines 1083-1094): drop the current frame,
and leave the loop when running under stop-on-return. -/
def ExecReturn (StopOnReturn : Bool) (vm' : sl_vm)
    (Parents : List sl_call_frame) : Option StepOut :=
  if StopOnReturn then
    some (StepOut.halt { vm' with Frames := Parents })
  else
    some (StepOut.next { vm' with Frames := Parents })

/-- Case `OpCode_Pop` (source lines 1096-1105): peek the byte at `PeekPtr`
(the already-advanced code pointer); pop and `DecRef` unless the next
opcode is `Return`. -/
def ExecPop (vm' : sl_vm) (code : List Nat) (PeekPtr : Nat) : Option StepOut :=
  match code.get? PeekPtr with
  | none => none
  | some nextOp =>
    if nextOp ≠ OpCode_Return then
      let p := StackPop vm'.Stack
      some (StepOut.next { vm' with Stack := p.2, StrRefCount := DecRef p.1 vm'.StrRefCount })
    else
      some (StepOut.next vm')

/-- The `switch (OpCode)` dispatch of `Execute` (source lines 938-1112),
over the already fetched opcode and argument bytes, with `Frame'` the
current frame after its code pointer advanced past them (`PeekPtr` is that
advanced offset, used only by the `Pop` case's one-byte peek).  Each case
block is modelled by the `Exec...` definition named after it; `Halt` exits
the loop and the `default:` case skips unknown opcodes. -/
def ExecuteInstr (sc : sl_script) (StopOnReturn : Bool) (vm' : sl_vm)
    (Frame' : sl_call_frame) (Parents : List sl_call_frame) (code : List Nat)
    (PeekPtr : Nat) (op Arg : Nat) : Option StepOut :=
  if op = OpCode_Def then ExecDef vm' Frame' Parents Arg
  else if op = OpCode_Defonce then ExecDefonce vm' Frame' Parents Arg
  else if op = OpCode_Set then ExecSet sc vm' Arg
  else if op = OpCode_Defun then ExecDefun sc vm' Frame' Parents Arg
  else if op = OpCode_LoadBool then ExecLoadBool vm' Arg
  else if op = OpCode_LoadNumber then ExecLoadNumber sc vm' Arg
  else if op = OpCode_LoadString then ExecLoadString sc vm' Arg
  else if op = OpCode_LoadSymbol then ExecLoadSymbol sc vm' Arg
  else if op = OpCode_LoadFunc then ExecLoadFunc sc vm' Arg
  else if op = OpCode_FuncCall then ExecFuncCall sc vm' Arg
  else if op = OpCode_Return then ExecReturn StopOnReturn vm' Parents
  else if op = OpCode_Pop then ExecPop vm' code PeekPtr
  else if op = OpCode_Halt then some (StepOut.halt vm')
  else some (StepOut.next vm')

/-- Source lines 932-1113: one iteration of the `Execute` dispatch loop.
Fetch the opcode and argument bytes at the current frame's code pointer
(advancing it by 2), then dispatch through `ExecuteInstr` exactly as the
`switch` does.  `none` means the iteration leaves the modelled domain: no
current frame (the source would dereference null), a fetch or intern-table
access out of bounds (the source would read out of bounds), or a call into
a native function (native bodies are separate C functions, modelled
individually, not as part of the instruction dispatch). -/
def ExecuteStep (sc : sl_script) (StopOnReturn : Bool) (vm : sl_vm) :
    Option StepOut :=
  match vm.Frames with
  | [] => none
  | Frame :: Parents =>
    match codeOf sc Frame.CodeId with
    | none => none
    | some code =>
      match code.get? Frame.CodePtr, code.get? (Frame.CodePtr + 1) with
      | some op, some Arg =>
        let Frame' : sl_call_frame := { Frame with CodePtr := Frame.CodePtr + 2 }
        let vm' : sl_vm := { vm with Frames := Frame' :: Parents }
        ExecuteInstr sc StopOnReturn vm' Frame' Parents code (Frame.CodePtr + 2) op Arg
      | _, _ => none

theorem ExecuteInstr_set (sc : sl_script) (sor : Bool) (vm' : sl_vm)
    (Frame' : sl_call_frame) (Parents : List sl_call_frame) (code : List Nat)
    (PeekPtr Arg : Nat) :
    ExecuteInstr sc sor vm' Frame' Parents code PeekPtr OpCode_Set Arg =
      ExecSet sc vm' Arg := by
  simp [ExecuteInstr, OpCode_Def, OpCode_Defonce, OpCode_Set]

theorem ExecuteInstr_loadSymbol (sc : sl_script) (sor : Bool) (vm' : sl_vm)
    (Frame' : sl_call_frame) (Parents : List sl_call_frame) (code : List Nat)
    (PeekPtr Arg : Nat) :
    ExecuteInstr sc sor vm' Frame' Parents code PeekPtr OpCode_LoadSymbol Arg =
      ExecLoadSymbol sc vm' Arg := by
  simp [ExecuteInstr, OpCode_Def, OpCode_Defonce, OpCode_Set, OpCode_Defun,
    OpCode_LoadBool, OpCode_LoadNumber, OpCode_LoadString, OpCode_LoadSymbol]

theorem ExecuteInstr_funcCall (sc : sl_script) (sor : Bool) (vm' : sl_vm)
    (Frame' : sl_call_frame) (Parents : List sl_call_frame) (code : List Nat)
    (PeekPtr Arg : Nat) :
    ExecuteInstr sc sor vm' Frame' Parents code PeekPtr OpCode_FuncCall Arg =
      ExecFuncCall sc vm' Arg := by
  simp [ExecuteInstr, OpCode_Def, OpCode_Defonce, OpCode_Set, OpCode_Defun,
    OpCode_LoadBool, OpCode_LoadNumber, OpCode_LoadString, OpCode_LoadSymbol,
    OpCode_LoadFunc, OpCode_FuncCall]

theorem ExecuteInstr_pop (sc : sl_script) (sor : Bool) (vm' : sl_vm)
    (Frame' : sl_call_frame) (Parents : List sl_call_frame) (code : List Nat)
    (PeekPtr Arg : Nat) :
    ExecuteInstr sc sor vm' Frame' Parents code PeekPtr OpCode_Pop Arg =
      ExecPop vm' code PeekPtr := by
  simp [ExecuteInstr, OpCode_Def, OpCode_Defonce, OpCode_Set, OpCode_Defun,
    OpCode_LoadBool, OpCode_LoadNumber, OpCode_LoadString, OpCode_LoadSymbol,
    OpCode_LoadFunc, OpCode_FuncCall, OpCode_Return, OpCode_Pop]

/-- Source lines 349-368, the scan loop of `AddString`: walk the table from
index 0 comparing content (`strcmp == 0`), returning the first matching
index. -/
def AddStringLoop (Value : String) : List String → Nat → Option Nat
  | [], _ => none
  | Str :: rest, i =>
    if Str = Value then some i else AddStringLoop Value rest (i + 1)

/-- Source lines 349-368 (`AddString`): return the index of an existing entry
with equal content, otherwise append the content and return the new last
index (`Strings.size() - 1`). -/
def AddString (Strings : List String) (Value : String) : Nat × List String :=
  match AddStringLoop Value Strings 0 with
  | some i => (i, Strings)
  | none => (Strings.length, Strings ++ [Value])

/-- A sequence of `AddString` calls against an evolving table: returns the
index each call returned, and the final table. -/
def RunAddStrings : List String → List String → List Nat × List String
  | [], t => ([], t)
  | v :: vs, t =>
    let p := AddString t v
    let r := RunAddStrings vs p.2
    (p.1 :: r.1, r.2)

/-- Source line 1311, the `IsFalse` macro:
`(Type == Bool && !Bool) || (Type == Nil)`. -/
def IsFalse (Value : sl_value) : Bool :=
  (match Value with
   | sl_value.Bool b => !b
   | _ => false) ||
  (match Value with
   | sl_value.Nil => true
   | _ => false)

/-- What a control-flow native does after testing its condition: invoke one
of the thunk values through `CallScriptFunc` (source lines 1125-1135), or
push Nil directly. -/
inductive BranchChoice where
  | CallThunk (v : sl_value) : BranchChoice
  | PushNil : BranchChoice
deriving DecidableEq

/-- Source lines 1312-1323, the `if` native: call `Args[1]` when `Args[0]` is
not false, else call `Args[2]`. -/
def If (Args : List sl_value) : BranchChoice :=
  if !IsFalse (Args.getD 0 sl_value.Nil) then
    BranchChoice.CallThunk (Args.getD 1 sl_value.Nil)
  else
    BranchChoice.CallThunk (Args.getD 2 sl_value.Nil)

/-- Source lines 1325-1336, the `when` native: call `Args[1]` when `Args[0]`
is not false, else push Nil. -/
def When (Args : List sl_value) : BranchChoice :=
  if !IsFalse (Args.getD 0 sl_value.Nil) then
    BranchChoice.CallThunk (Args.getD 1 sl_value.Nil)
  else
    BranchChoice.PushNil

/-- Source lines 166-170 (`sl_coroutine`): the suspended-frame pointer is
either null or a pointer into a frame chain, modelled as that frame together
with the chain of its parents; `Func` is the wrapped function's index. -/
structure sl_coroutine where
  Frame : Option (sl_call_frame × List sl_call_frame)
  Func : Nat

/-- How the `call` native leaves its body: return immediately (the exhausted
path, source lines 1359-1363), or fall through to
`Execute(Vm, Script, &Co->Func->Code, true, Co)` (line 1379). -/
inductive CallAction where
  | ReturnNow : CallAction
  | Enter (funcIdx : Nat) (StopOnReturn : Bool) : CallAction
deriving DecidableEq

/-- Source lines 1366-1372 inside `call`: `for (i = 1; i < ArgCount; i++)
StackPush(Args[i])`. -/
def PushExtraArgs (Args : List sl_value) : Nat → List sl_value → List sl_value
  | 0, s => s
  | 1, s => s
  | k + 1, s => StackPush (Args.getD k sl_value.Nil) (PushExtraArgs Args k s)

/-- Source lines 1352-1380, the `call` native up to (and characterising) its
`Execute` call.  With a suspended frame: if the byte two before its code
pointer is `Return` the coroutine is exhausted — push Nil and return without
executing; otherwise push the extra arguments (or Nil if none) and resume.
With no suspended frame (never yet resumed): fall straight through to the
`Execute` call — nothing is pushed.  `none` only when the suspended frame's
code pointer cannot be resolved (out of the modelled domain). -/
def Call (sc : sl_script) (Co : sl_coroutine) (Args : List sl_value)
    (ArgCount : Nat) (s : List sl_value) :
    Option (List sl_value × CallAction) :=
  match Co.Frame with
  | some fr =>
    match codeOf sc fr.1.CodeId with
    | none => none
    | some code =>
      if code.get? (fr.1.CodePtr - 2) = some OpCode_Return then
        some (StackPush sl_value.Nil s, CallAction.ReturnNow)
      else if ArgCount > 1 then
        some (PushExtraArgs Args ArgCount s, CallAction.Enter Co.Func true)
      else
        some (StackPush sl_value.Nil s, CallAction.Enter Co.Func true)
  | none => some (s, CallAction.Enter Co.Func true)

/-- Source lines 922-931, the entry of `Execute`: with a coroutine that has a
suspended frame, make that frame current (its own parent chain replaces the
running chain, exactly as the `CurrentFrame` pointer assignment does);
otherwise push a fresh frame at the start of the given code buffer,
back-linked to the coroutine when one was supplied. -/
def ExecuteEntry (CodeId : Option Nat) (Co : Option (Nat × sl_coroutine))
    (vm : sl_vm) : sl_vm :=
  match Co with
  | some c =>
    match c.2.Frame with
    | some fr => { vm with Frames := fr.1 :: fr.2 }
    | none => { vm with Frames := PushCallFrame CodeId (some c.1) vm.Frames }
  | none => { vm with Frames := PushCallFrame CodeId none vm.Frames }


/-! ## Projections used to state concrete observations about a step result -/

/-- Operand stack of a step outcome. -/
def stackOf : Option StepOut → Option (List sl_value)
  | some o => some (outVm o).Stack
  | none => none

/-- Frame chain of a step outcome. -/
def framesOf : Option StepOut → Option (List sl_call_frame)
  | some o => some (outVm o).Frames
  | none => none

/-- Slot `i` of the `j`-th frame (0 = innermost) of a step outcome. -/
def varOfFrame (o : Option StepOut) (j i : Nat) : Option sl_value :=
  (framesOf o).bind (fun fs => (fs.get? j).map (fun f => f.Vars i))

/-- Ghost defined-flag of slot `i` of the `j`-th frame of a step outcome. -/
def definedOfFrame (o : Option StepOut) (j i : Nat) : Option Bool :=
  (framesOf o).bind (fun fs => (fs.get? j).map (fun f => f.Defined i))

/-- The values the `LoadSymbol`/`Set` chain walk finds for variable `Arg`:
the non-Nil `Vars[Arg]` entries of the chain, innermost first. -/
def chainMatches (Arg : Nat) (fs : List sl_call_frame) : List sl_value :=
  (fs.map (fun g => g.Vars Arg)).filter (fun v => !(v == sl_value.Nil))

/-! ## Claims C5 and C6 -/

/-- C5 counterexample: the declared capacity of the frame variable array and
of the VM operand stack is `MaxVars = 255`, not 256 as the claim states
(`#define MaxVars 255`, source line 187). -/
theorem capacities_not_256 : ¬(frameVarsCapacity = 256 ∨ vmStackCapacity = 256) := by
  decide

/-- C5 (amended): the operand value stack and each frame variable array are
fixed-size arrays of exactly 255 slots (`MaxVars`). -/
theorem capacities_eq_255 :
    MaxVars = 255 ∧ frameVarsCapacity = 255 ∧ vmStackCapacity = 255 := by
  decide

/-- C6: popping the empty operand stack (top index 0) returns a
default-constructed `Nil` value and leaves the stack unchanged — there is no
underflow fault, `StackPop` is total (source lines 902-910). -/
theorem stackPop_empty_nil : StackPop [] = (sl_value.Nil, []) := rfl

/-! ## Claim C8: truthiness of the `if` and `when` natives -/

/-- C8: the `if`/`when` natives treat a condition as falsy exactly when it is
`Nil` or `Bool false` (the `IsFalse` macro, source line 1311); every other
value — whatever its tag or payload, including `Number 0` — selects the
then-thunk. -/
theorem truthiness_if_when (v t e : sl_value) :
    (IsFalse v = true ↔ (v = sl_value.Nil ∨ v = sl_value.Bool false)) ∧
    (¬(v = sl_value.Nil ∨ v = sl_value.Bool false) →
       If [v, t, e] = BranchChoice.CallThunk t) ∧
    ((v = sl_value.Nil ∨ v = sl_value.Bool false) →
       If [v, t, e] = BranchChoice.CallThunk e) ∧
    (¬(v = sl_value.Nil ∨ v = sl_value.Bool false) →
       When [v, t] = BranchChoice.CallThunk t) ∧
    ((v = sl_value.Nil ∨ v = sl_value.Bool false) →
       When [v, t] = BranchChoice.PushNil) := by
  have hiff : IsFalse v = true ↔ (v = sl_value.Nil ∨ v = sl_value.Bool false) := by
    cases v with
    | Nil => simp [IsFalse]
    | Bool b => cases b <;> simp [IsFalse]
    | Number bits => simp [IsFalse]
    | String sid => simp [IsFalse]
    | Func fid => simp [IsFalse]
    | NativeFunc nid => simp [IsFalse]
    | Coroutine cid => simp [IsFalse]
    | Custom pid => simp [IsFalse]
  refine ⟨hiff, ?_, ?_, ?_, ?_⟩
  · intro h
    have hf : IsFalse v = false := by
      cases hb : IsFalse v
      · rfl
      · exact absurd (hiff.mp hb) h
    simp [If, hf]
  · intro h
    simp [If, hiff.mpr h]
  · intro h
    have hf : IsFalse v = false := by
      cases hb : IsFalse v
      · rfl
      · exact absurd (hiff.mp hb) h
    simp [When, hf]
  · intro h
    simp [When, hiff.mpr h]

/-- C8 witness: `Number 0` (float bit pattern 0 = +0.0) is truthy and selects
the then-thunk of `if`; `Nil` makes `when` push Nil. -/
theorem truthiness_if_when_witness :
    If [sl_value.Number 0, sl_value.Func 0, sl_value.Func 1] =
      BranchChoice.CallThunk (sl_value.Func 0) ∧
    When [sl_value.Nil, sl_value.Func 0] = BranchChoice.PushNil :=
  ⟨(truthiness_if_when (sl_value.Number 0) (sl_value.Func 0) (sl_value.Func 1)).2.1
      (by decide),
   (truthiness_if_when sl_value.Nil (sl_value.Func 0) sl_value.Nil).2.2.2.2
      (by decide)⟩

/-! ## Claim C9: intern determinism of `AddString` -/

theorem AddStringLoop_spec (Value : String) (t : List String) (i : Nat) :
    AddStringLoop Value t i =
      if Value ∈ t then some (i + t.indexOf Value) else none := by
  induction t generalizing i with
  | nil => simp [AddStringLoop]
  | cons s rest ih =>
    by_cases h : s = Value
    · subst h
      simp [AddStringLoop, List.indexOf_cons_self]
    · rw [AddStringLoop, if_neg h, ih]
      by_cases hm : Value ∈ rest
      · rw [if_pos hm, if_pos (List.mem_cons_of_mem s hm),
            List.indexOf_cons_ne rest h]
        congr 1
        omega
      · rw [if_neg hm, if_neg]
        intro hmem
        rcases List.mem_cons.mp hmem with h1 | h2
        · exact h h1.symm
        · exact hm h2

theorem AddString_mem (t : List String) (v : String) (h : v ∈ t) :
    AddString t v = (t.indexOf v, t) := by
  simp [AddString, AddStringLoop_spec, h]

theorem AddString_not_mem (t : List String) (v : String) (h : v ∉ t) :
    AddString t v = (t.length, t ++ [v]) := by
  simp [AddString, AddStringLoop_spec, h]

theorem RunAddStrings_spec (vs : List String) (t : List String) (hnd : t.Nodup) :
    (RunAddStrings vs t).2.Nodup ∧
    (∀ x, x ∈ t → x ∈ (RunAddStrings vs t).2 ∧
       (RunAddStrings vs t).2.indexOf x = t.indexOf x) ∧
    (RunAddStrings vs t).1.length = vs.length ∧
    (∀ j (hj : j < vs.length),
       (RunAddStrings vs t).1.get? j =
         some ((RunAddStrings vs t).2.indexOf (vs.get ⟨j, hj⟩)) ∧
       vs.get ⟨j, hj⟩ ∈ (RunAddStrings vs t).2) := by
  induction vs generalizing t with
  | nil =>
    refine ⟨hnd, fun x hx => ⟨hx, rfl⟩, rfl, fun j hj => absurd hj (by simp)⟩
  | cons v vs ih =>
    by_cases hv : v ∈ t
    · have hrun : RunAddStrings (v :: vs) t =
        (t.indexOf v :: (RunAddStrings vs t).1, (RunAddStrings vs t).2) := by
        rw [RunAddStrings, AddString_mem t v hv]
      obtain ⟨ihnd, istab, ilen, iget⟩ := ih t hnd
      rw [hrun]
      refine ⟨ihnd, fun x hx => istab x hx, by simp [ilen], ?_⟩
      intro j hj
      match j with
      | 0 =>
        refine ⟨?_, (istab v hv).1⟩
        simp [(istab v hv).2]
      | Nat.succ j' =>
        have hj' : j' < vs.length := by simpa using hj
        simpa using iget j' hj'
    · have hnd' : (t ++ [v]).Nodup := by
        simp [List.nodup_append, hnd, hv]
      have hrun : RunAddStrings (v :: vs) t =
        (t.length :: (RunAddStrings vs (t ++ [v])).1,
         (RunAddStrings vs (t ++ [v])).2) := by
        rw [RunAddStrings, AddString_not_mem t v hv]
      obtain ⟨ihnd, istab, ilen, iget⟩ := ih (t ++ [v]) hnd'
      rw [hrun]
      have hvmem : v ∈ t ++ [v] := by simp
      have hvidx : (t ++ [v]).indexOf v = t.length := by
        rw [List.indexOf_append_of_not_mem hv]
        simp [List.indexOf_cons_self]
      refine ⟨ihnd, ?_, by simp [ilen], ?_⟩
      · intro x hx
        have hx' : x ∈ t ++ [v] := List.mem_append_left _ hx
        refine ⟨(istab x hx').1, ?_⟩
        rw [(istab x hx').2, List.indexOf_append_of_mem hx]
      · intro j hj
        match j with
        | 0 =>
          refine ⟨?_, (istab v hvmem).1⟩
          simp [(istab v hvmem).2, hvidx]
        | Nat.succ j' =>
          have hj' : j' < vs.length := by simpa using hj
          simpa using iget j' hj'

/-- C9: for every sequence of `AddString` calls (starting from the empty
table), two calls return the same index exactly when their contents are
equal (so distinct content means distinct indices and identical content the
identical index); the table stays duplicate-free, a fresh content is
appended and receives the next unused index `Strings.size() - 1`, and an
already-interned content returns its existing position. -/
theorem addString_intern_det (vs : List String) (a b : Nat)
    (ha : a < vs.length) (hb : b < vs.length) :
    ((RunAddStrings vs []).1.get? a = (RunAddStrings vs []).1.get? b ↔
       vs.get ⟨a, ha⟩ = vs.get ⟨b, hb⟩) ∧
    (RunAddStrings vs []).2.Nodup ∧
    (∀ t v, v ∉ t → AddString t v = (t.length, t ++ [v])) ∧
    (∀ t v, v ∈ t → AddString t v = (t.indexOf v, t)) := by
  obtain ⟨hnd, _, _, hget⟩ := RunAddStrings_spec vs [] List.nodup_nil
  obtain ⟨hga, hma⟩ := hget a ha
  obtain ⟨hgb, hmb⟩ := hget b hb
  refine ⟨?_, hnd, fun t v h => AddString_not_mem t v h,
    fun t v h => AddString_mem t v h⟩
  rw [hga, hgb]
  constructor
  · intro h
    exact (List.indexOf_inj hma hmb).mp (Option.some_injective _ h)
  · intro h
    rw [h]

/-- C9 witness: interning "x", "y", "x" in order gives the first and third
call the same index. -/
theorem addString_intern_det_witness :
    (RunAddStrings ["x", "y", "x"] []).1.get? 0 =
      (RunAddStrings ["x", "y", "x"] []).1.get? 2 :=
  (addString_intern_det ["x", "y", "x"] 0 2 (by decide) (by decide)).1.mpr rfl


/-! ## Claim C1: effect of `LoadSymbol` -/

theorem StackPop_eq (s : List sl_value) :
    StackPop s = (s.getD 0 sl_value.Nil, s.drop 1) := by
  cases s <;> rfl

theorem LoadSymbolWalk_eq (Arg : Nat) (fs : List sl_call_frame)
    (s : List sl_value) :
    LoadSymbolWalk Arg fs s =
      ((chainMatches Arg fs).reverse ++ s, !(chainMatches Arg fs).isEmpty) := by
  induction fs generalizing s with
  | nil => simp [LoadSymbolWalk, chainMatches]
  | cons f rest ih =>
    by_cases h : f.Vars Arg = sl_value.Nil
    · simp [LoadSymbolWalk, h, ih, chainMatches]
    · simp [LoadSymbolWalk, h, ih, chainMatches, StackPush]

/-- Frame chain used by the C1 counterexample: the inner frame binds
variable 0 to `Bool true`. -/
def frC1inner : sl_call_frame :=
  { Vars := Function.update (fun _ => sl_value.Nil) 0 (sl_value.Bool true),
    Defined := Function.update (fun _ => false) 0 true,
    CodeId := none, CodePtr := 0, Coroutine := none }

/-- Frame chain used by the C1 counterexample: the outer frame binds
variable 0 to `Bool false`. -/
def frC1outer : sl_call_frame :=
  { Vars := Function.update (fun _ => sl_value.Nil) 0 (sl_value.Bool false),
    Defined := Function.update (fun _ => false) 0 true,
    CodeId := none, CodePtr := 0, Coroutine := none }

/-- Script used by the C1 counterexample: top-level code is a single
`LoadSymbol 0` instruction. -/
def scC1 : sl_script :=
  { Strings := ["x"], Numbers := [], Funcs := [],
    Code := [OpCode_LoadSymbol, 0] }

/-- VM state used by the C1 counterexample: two frames, both binding
variable 0, empty operand stack. -/
def vmC1 : sl_vm :=
  { Globals := fun _ => none, Stack := [], Frames := [frC1inner, frC1outer],
    StrRefCount := fun _ => 0 }

/-- C1 counterexample: executing `LoadSymbol 0` with variable 0 bound
non-Nil in two frames of the chain pushes TWO values (one per matching
frame, the outermost match on top), not exactly one as the claim states:
the stack goes from empty to `[Bool false, Bool true]` (source lines
1013-1026 push inside the walk loop without breaking out). -/
theorem loadSymbol_two_pushes :
    vmC1.Stack = [] ∧
    stackOf (ExecuteStep scC1 false vmC1) =
      some [sl_value.Bool false, sl_value.Bool true] := by
  constructor
  · rfl
  · decide


/-- C1 (amended): a `LoadSymbol s` instruction pushes one value for EACH
frame on the chain whose slot `s` is non-Nil, walking from the current frame
outward, so the outermost match ends on top of the stack; only when no frame
on the chain has a non-Nil slot `s` is exactly one value pushed — the
`Globals` entry under the string named by `s`, or Nil if that global is
absent (source lines 1013-1040). -/
theorem loadSymbol_effect (sc : sl_script) (sor : Bool) (vm : sl_vm)
    (f : sl_call_frame) (fs : List sl_call_frame) (code : List Nat)
    (Arg : Nat) (name : String)
    (hfr : vm.Frames = f :: fs)
    (hcode : codeOf sc f.CodeId = some code)
    (hop : code.get? f.CodePtr = some OpCode_LoadSymbol)
    (harg : code.get? (f.CodePtr + 1) = some Arg) :
    (chainMatches Arg (f :: fs) ≠ [] →
       ExecuteStep sc sor vm = some (StepOut.next
         { vm with Frames := { f with CodePtr := f.CodePtr + 2 } :: fs,
                   Stack := (chainMatches Arg (f :: fs)).reverse ++ vm.Stack })) ∧
    (chainMatches Arg (f :: fs) = [] → sc.Strings.get? Arg = some name →
       ExecuteStep sc sor vm = some (StepOut.next
         { vm with Frames := { f with CodePtr := f.CodePtr + 2 } :: fs,
                   Stack := StackPush ((vm.Globals name).getD sl_value.Nil) vm.Stack })) := by
  have hop' : code[f.CodePtr]? = some OpCode_LoadSymbol := by simpa using hop
  have harg' : code[f.CodePtr + 1]? = some Arg := by simpa using harg
  have hch : chainMatches Arg ({ f with CodePtr := f.CodePtr + 2 } :: fs) =
      chainMatches Arg (f :: fs) := rfl
  have hstep : ExecuteStep sc sor vm =
      ExecLoadSymbol sc { vm with Frames := { f with CodePtr := f.CodePtr + 2 } :: fs } Arg := by
    have h1 : ExecuteStep sc sor vm =
        ExecuteInstr sc sor { vm with Frames := { f with CodePtr := f.CodePtr + 2 } :: fs }
          { f with CodePtr := f.CodePtr + 2 } fs code (f.CodePtr + 2)
          OpCode_LoadSymbol Arg := by
      simp [ExecuteStep, hfr, hcode, hop', harg']
    rw [h1, ExecuteInstr_loadSymbol]
  constructor
  · intro hm
    have hne : (chainMatches Arg (f :: fs)).isEmpty = false := by
      simpa [List.isEmpty_iff] using hm
    rw [hstep]
    simp [ExecLoadSymbol, LoadSymbolWalk_eq, hch, hne]
  · intro hm hname
    have hname' : sc.Strings[Arg]? = some name := by simpa using hname
    rw [hstep]
    cases hg : vm.Globals name with
    | none =>
      simp [ExecLoadSymbol, LoadSymbolWalk_eq, hch, hm, hname', hg, StackPush]
    | some v =>
      simp [ExecLoadSymbol, LoadSymbolWalk_eq, hch, hm, hname', hg, StackPush]

/-- C1 witness: concrete run of `loadSymbol_effect` on `vmC1` — both frames
match, so the two matching values are pushed, outermost on top. -/
theorem loadSymbol_effect_witness :
    ExecuteStep scC1 false vmC1 = some (StepOut.next
      { vmC1 with
          Frames := { frC1inner with CodePtr := frC1inner.CodePtr + 2 } :: [frC1outer],
          Stack := (chainMatches 0 [frC1inner, frC1outer]).reverse ++ vmC1.Stack }) ∧
    (chainMatches 0 [frC1inner, frC1outer]).reverse ++ vmC1.Stack =
      [sl_value.Bool false, sl_value.Bool true] :=
  ⟨(loadSymbol_effect scC1 false vmC1 frC1inner [frC1outer] scC1.Code 0 "x"
      rfl rfl rfl rfl).1 (by decide),
   by decide⟩


/-! ## Claim C2: effect of `Set` -/

/-- Value-level description of the `Set` walk: given the slot values of the
chain (innermost first), each non-Nil entry is replaced by the next value
popped from the stack. -/
def writeMatches : List sl_value → List sl_value → List sl_value
  | [], _ => []
  | v :: rest, s =>
    if v = sl_value.Nil then v :: writeMatches rest s
    else s.getD 0 sl_value.Nil :: writeMatches rest (s.drop 1)

theorem SetWalk_stack (Arg : Nat) (fs : List sl_call_frame) (s : List sl_value) :
    (SetWalk Arg fs s).2.1 = s.drop (chainMatches Arg fs).length ∧
    (SetWalk Arg fs s).2.2 = !(chainMatches Arg fs).isEmpty := by
  induction fs generalizing s with
  | nil => exact ⟨rfl, rfl⟩
  | cons f rest ih =>
    by_cases h : f.Vars Arg = sl_value.Nil
    · have hch : chainMatches Arg (f :: rest) = chainMatches Arg rest := by
        simp [chainMatches, h]
      obtain ⟨i1, i2⟩ := ih s
      exact ⟨by simp [SetWalk, h, i1, hch], by simp [SetWalk, h, i2, hch]⟩
    · have hch : chainMatches Arg (f :: rest) =
          f.Vars Arg :: chainMatches Arg rest := by
        simp [chainMatches, h]
      obtain ⟨i1, i2⟩ := ih (StackPop s).2
      constructor
      · rw [SetWalk]
        simp only [h, if_neg, ite_false]
        rw [i1, hch, StackPop_eq]
        simp [List.drop_drop, Nat.add_comm]
      · simp [SetWalk, h, hch]

theorem SetWalk_vars (Arg : Nat) (fs : List sl_call_frame) (s : List sl_value) :
    (SetWalk Arg fs s).1.map (fun g => g.Vars Arg) =
      writeMatches (fs.map (fun g => g.Vars Arg)) s := by
  induction fs generalizing s with
  | nil => rfl
  | cons f rest ih =>
    by_cases h : f.Vars Arg = sl_value.Nil
    · simp [SetWalk, h, writeMatches, ih]
    · simp [SetWalk, h, writeMatches, ih, StackPop_eq, setVar]

theorem SetWalk_other (Arg i : Nat) (hne : i ≠ Arg) (fs : List sl_call_frame)
    (s : List sl_value) :
    (SetWalk Arg fs s).1.map (fun g => g.Vars i) = fs.map (fun g => g.Vars i) := by
  induction fs generalizing s with
  | nil => rfl
  | cons f rest ih =>
    by_cases h : f.Vars Arg = sl_value.Nil
    · simp [SetWalk, h, ih]
    · simp [SetWalk, h, ih, setVar, Function.update_noteq hne]

/-- Script used by the C2 counterexample: top-level code is `Set 0`. -/
def scC2 : sl_script :=
  { Strings := ["x"], Numbers := [], Funcs := [], Code := [OpCode_Set, 0] }

/-- VM state used by the C2 counterexample: two frames both binding variable
0 (reusing the C1 frames), two values on the stack. -/
def vmC2 : sl_vm :=
  { Globals := fun _ => none,
    Stack := [sl_value.Number 10, sl_value.Number 20],
    Frames := [frC1inner, frC1outer], StrRefCount := fun _ => 0 }

/-- C2 counterexample: executing `Set 0` with variable 0 bound non-Nil in two
frames pops TWO values and writes BOTH frames (innermost gets the top of the
stack), not exactly one value into the first matching frame as the claim
states (source lines 955-974 write inside the walk loop without breaking
out). -/
theorem set_two_writes :
    vmC2.Stack = [sl_value.Number 10, sl_value.Number 20] ∧
    stackOf (ExecuteStep scC2 false vmC2) = some [] ∧
    varOfFrame (ExecuteStep scC2 false vmC2) 0 0 = some (sl_value.Number 10) ∧
    varOfFrame (ExecuteStep scC2 false vmC2) 1 0 = some (sl_value.Number 20) := by
  refine ⟨rfl, ?_, ?_, ?_⟩ <;> decide

/-- C2 (amended): a `Set s` instruction pops one value for EACH frame on the
chain whose slot `s` is non-Nil, walking from the current frame outward and
writing each popped value into that frame's slot `s` (so the slot-`s` values
of the chain become `writeMatches` of their old values against the stack,
and the stack shrinks by the number of matching frames); slots other than
`s` are untouched.  Only when no frame on the chain has a non-Nil slot `s`
is exactly one value popped, written to the `Globals` entry under the string
named by `s` (source lines 955-974). -/
theorem set_effect (sc : sl_script) (sor : Bool) (vm : sl_vm)
    (f : sl_call_frame) (fs : List sl_call_frame) (code : List Nat)
    (Arg : Nat) (name : String)
    (hfr : vm.Frames = f :: fs)
    (hcode : codeOf sc f.CodeId = some code)
    (hop : code.get? f.CodePtr = some OpCode_Set)
    (harg : code.get? (f.CodePtr + 1) = some Arg) :
    (chainMatches Arg (f :: fs) ≠ [] →
       stackOf (ExecuteStep sc sor vm) =
         some (vm.Stack.drop (chainMatches Arg (f :: fs)).length) ∧
       (framesOf (ExecuteStep sc sor vm)).map (fun l => l.map (fun g => g.Vars Arg)) =
         some (writeMatches ((f :: fs).map (fun g => g.Vars Arg)) vm.Stack) ∧
       (∀ i, i ≠ Arg →
          (framesOf (ExecuteStep sc sor vm)).map (fun l => l.map (fun g => g.Vars i)) =
            some ((f :: fs).map (fun g => g.Vars i)))) ∧
    (chainMatches Arg (f :: fs) = [] → sc.Strings.get? Arg = some name →
       ExecuteStep sc sor vm = some (StepOut.next
         { vm with Frames := { f with CodePtr := f.CodePtr + 2 } :: fs,
                   Stack := (StackPop vm.Stack).2,
                   Globals := Function.update vm.Globals name
                     (some (StackPop vm.Stack).1) })) := by
  have hop' : code[f.CodePtr]? = some OpCode_Set := by simpa using hop
  have harg' : code[f.CodePtr + 1]? = some Arg := by simpa using harg
  have hch : chainMatches Arg ({ f with CodePtr := f.CodePtr + 2 } :: fs) =
      chainMatches Arg (f :: fs) := rfl
  have hstep : ExecuteStep sc sor vm =
      ExecSet sc { vm with Frames := { f with CodePtr := f.CodePtr + 2 } :: fs } Arg := by
    have h1 : ExecuteStep sc sor vm =
        ExecuteInstr sc sor { vm with Frames := { f with CodePtr := f.CodePtr + 2 } :: fs }
          { f with CodePtr := f.CodePtr + 2 } fs code (f.CodePtr + 2)
          OpCode_Set Arg := by
      simp [ExecuteStep, hfr, hcode, hop', harg']
    rw [h1, ExecuteInstr_set]
  constructor
  · intro hm
    have hne : (chainMatches Arg (f :: fs)).isEmpty = false := by
      simpa [List.isEmpty_iff] using hm
    have hflag : (SetWalk Arg ({ f with CodePtr := f.CodePtr + 2 } :: fs) vm.Stack).2.2 = true := by
      rw [(SetWalk_stack Arg _ vm.Stack).2, hch, hne]
      rfl
    have hout : ExecuteStep sc sor vm = some (StepOut.next
        { vm with
            Frames := (SetWalk Arg ({ f with CodePtr := f.CodePtr + 2 } :: fs) vm.Stack).1,
            Stack := (SetWalk Arg ({ f with CodePtr := f.CodePtr + 2 } :: fs) vm.Stack).2.1 }) := by
      rw [hstep]
      simp [ExecSet, hflag]
    refine ⟨?_, ?_, ?_⟩
    · rw [hout]
      simp [stackOf, outVm, (SetWalk_stack Arg _ vm.Stack).1, hch]
    · rw [hout]
      simp [framesOf, outVm, SetWalk_vars]
    · intro i hi
      rw [hout]
      simp [framesOf, outVm, SetWalk_other Arg i hi]
  · intro hm hname
    have hname' : sc.Strings[Arg]? = some name := by simpa using hname
    have hflag : (SetWalk Arg ({ f with CodePtr := f.CodePtr + 2 } :: fs) vm.Stack).2.2 = false := by
      rw [(SetWalk_stack Arg _ vm.Stack).2, hch, hm]
      rfl
    rw [hstep]
    simp [ExecSet, hflag, hname']

/-- C2 witness: concrete run of `set_effect` on `vmC2` — both frames match,
two values are consumed, the resulting slot values are exactly
`writeMatches` of the old ones. -/
theorem set_effect_witness :
    stackOf (ExecuteStep scC2 false vmC2) =
      some (vmC2.Stack.drop (chainMatches 0 [frC1inner, frC1outer]).length) ∧
    (framesOf (ExecuteStep scC2 false vmC2)).map (fun l => l.map (fun g => g.Vars 0)) =
      some (writeMatches ([frC1inner, frC1outer].map (fun g => g.Vars 0)) vmC2.Stack) ∧
    writeMatches ([frC1inner, frC1outer].map (fun g => g.Vars 0)) vmC2.Stack =
      [sl_value.Number 10, sl_value.Number 20] := by
  have h := (set_effect scC2 false vmC2 frC1inner [frC1outer] scC2.Code 0 "x"
    rfl rfl rfl rfl).1 (by decide)
  exact ⟨h.1, h.2.1, by decide⟩


/-! ## Claim C3: `call` on a never-resumed coroutine -/

/-- Script used by the C3 counterexample/witness: one function (index 0)
whose body is a bare `Return`. -/
def scC3 : sl_script :=
  { Strings := ["gen"], Numbers := [],
    Funcs := [{ Code := [OpCode_Return, 0], StringIndex := 0, ArgCount := 0,
                Args := [] }],
    Code := [] }

/-- A coroutine that has never been resumed: `SuspendedFrame` null. -/
def coC3 : sl_coroutine := { Frame := none, Func := 0 }

/-- C3 counterexample: calling a never-resumed coroutine with an extra
argument (`ArgCount = 2`) leaves the operand stack UNCHANGED before entering
`Execute` — no welcome value (neither the extra argument nor Nil) is pushed,
contrary to the claim: in the source the pushes at lines 1366-1377 sit
inside `if (Co->Frame)` and are skipped entirely when the suspended frame is
null. -/
theorem call_fresh_no_welcome_push :
    Call scC3 coC3 [sl_value.Coroutine 0, sl_value.Number 7] 2 [] =
      some ([], CallAction.Enter 0 true) := by
  decide

/-- C3 (amended): when `call` is invoked on a coroutine whose suspended
frame is null, NO value is pushed (extra arguments are ignored); the VM then
executes the coroutine function's code from byte 0 under stop-on-return, the
fresh frame carrying the back-link to the coroutine (source lines 1352-1380
falling into lines 922-931). -/
theorem call_fresh_effect (sc : sl_script) (Co : sl_coroutine)
    (Args : List sl_value) (ArgCount : Nat) (s : List sl_value) (cid : Nat)
    (vm : sl_vm) (h : Co.Frame = none) :
    Call sc Co Args ArgCount s = some (s, CallAction.Enter Co.Func true) ∧
    (ExecuteEntry (some Co.Func) (some (cid, Co)) vm).Frames =
      { Vars := fun _ => sl_value.Nil, Defined := fun _ => false,
        CodeId := some Co.Func, CodePtr := 0,
        Coroutine := some cid } :: vm.Frames ∧
    (ExecuteEntry (some Co.Func) (some (cid, Co)) vm).Stack = vm.Stack := by
  refine ⟨?_, ?_, ?_⟩ <;> simp [Call, ExecuteEntry, PushCallFrame, h]

/-- C3 witness: concrete run of `call_fresh_effect` — the stack stays `[]`
even though an extra argument was supplied, and the entry frame starts at
byte 0 with the coroutine back-link. -/
theorem call_fresh_effect_witness :
    Call scC3 coC3 [sl_value.Coroutine 0, sl_value.Number 7] 2 [] =
      some ([], CallAction.Enter coC3.Func true) ∧
    (ExecuteEntry (some coC3.Func) (some (5, coC3)) vmC1).Frames =
      { Vars := fun _ => sl_value.Nil, Defined := fun _ => false,
        CodeId := some coC3.Func, CodePtr := 0,
        Coroutine := some 5 } :: vmC1.Frames :=
  ⟨(call_fresh_effect scC3 coC3 [sl_value.Coroutine 0, sl_value.Number 7] 2 []
      5 vmC1 rfl).1,
   (call_fresh_effect scC3 coC3 [sl_value.Coroutine 0, sl_value.Number 7] 2 []
      5 vmC1 rfl).2.1⟩

/-! ## Claim C7: effect of `Pop` -/

/-- C7: a `Pop` instruction whose following instruction exists peeks at the
next opcode byte: if it is not `Return`, exactly one `StackPop` happens and
the popped value is released through `DecRef`; if it is `Return`, the stack
and the refcounts are left untouched (source lines 1096-1105). -/
theorem pop_effect (sc : sl_script) (sor : Bool) (vm : sl_vm)
    (f : sl_call_frame) (fs : List sl_call_frame) (code : List Nat)
    (a b : Nat)
    (hfr : vm.Frames = f :: fs)
    (hcode : codeOf sc f.CodeId = some code)
    (hop : code.get? f.CodePtr = some OpCode_Pop)
    (harg : code.get? (f.CodePtr + 1) = some a)
    (hnext : code.get? (f.CodePtr + 2) = some b) :
    (b ≠ OpCode_Return →
       ExecuteStep sc sor vm = some (StepOut.next
         { vm with Frames := { f with CodePtr := f.CodePtr + 2 } :: fs,
                   Stack := (StackPop vm.Stack).2,
                   StrRefCount := DecRef (StackPop vm.Stack).1 vm.StrRefCount })) ∧
    (b = OpCode_Return →
       ExecuteStep sc sor vm = some (StepOut.next
         { vm with Frames := { f with CodePtr := f.CodePtr + 2 } :: fs })) := by
  have hop' : code[f.CodePtr]? = some OpCode_Pop := by simpa using hop
  have harg' : code[f.CodePtr + 1]? = some a := by simpa using harg
  have hnext' : code[f.CodePtr + 2]? = some b := by simpa using hnext
  have hstep : ExecuteStep sc sor vm =
      ExecPop { vm with Frames := { f with CodePtr := f.CodePtr + 2 } :: fs }
        code (f.CodePtr + 2) := by
    have h1 : ExecuteStep sc sor vm =
        ExecuteInstr sc sor { vm with Frames := { f with CodePtr := f.CodePtr + 2 } :: fs }
          { f with CodePtr := f.CodePtr + 2 } fs code (f.CodePtr + 2)
          OpCode_Pop a := by
      simp [ExecuteStep, hfr, hcode, hop', harg']
    rw [h1, ExecuteInstr_pop]
  constructor
  · intro hb
    have hb' : b ≠ 11 := by simpa [OpCode_Return] using hb
    rw [hstep]
    simp [ExecPop, hnext', hb', OpCode_Return]
  · intro hb
    have hb' : b = 11 := by simpa [OpCode_Return] using hb
    rw [hstep]
    simp [ExecPop, hnext', hb', OpCode_Return]

/-- Script used by the C7 witness: `Pop` followed by `Halt`. -/
def scC7 : sl_script :=
  { Strings := ["s"], Numbers := [], Funcs := [],
    Code := [OpCode_Pop, 0, OpCode_Halt, 0] }

/-- Fresh frame at the start of the C7 witness script. -/
def frC7 : sl_call_frame :=
  { Vars := fun _ => sl_value.Nil, Defined := fun _ => false,
    CodeId := none, CodePtr := 0, Coroutine := none }

/-- VM state for the C7 witness: a string value (refcount 1) on the stack. -/
def vmC7 : sl_vm :=
  { Globals := fun _ => none, Stack := [sl_value.String 0],
    Frames := [frC7], StrRefCount := fun _ => 1 }

/-- C7 witness: with `Halt` (not `Return`) following, `Pop` removes the
string value from the stack and its refcount drops from 1 to 0. -/
theorem pop_effect_witness :
    ExecuteStep scC7 false vmC7 = some (StepOut.next
      { vmC7 with Frames := { frC7 with CodePtr := frC7.CodePtr + 2 } :: [],
                  Stack := (StackPop vmC7.Stack).2,
                  StrRefCount := DecRef (StackPop vmC7.Stack).1 vmC7.StrRefCount }) ∧
    (StackPop vmC7.Stack).2 = [] ∧
    DecRef (StackPop vmC7.Stack).1 vmC7.StrRefCount 0 = 0 :=
  ⟨(pop_effect scC7 false vmC7 frC7 [] scC7.Code 0 OpCode_Halt
      rfl rfl rfl rfl rfl).1 (by decide),
   rfl, by decide⟩

/-! ## Claim C10: argument-count adjustment of `FuncCall` -/

theorem PopArgsLoop_append (l r : List sl_value) :
    PopArgsLoop l.length (l ++ r) = (l.reverse, r) := by
  induction l generalizing r with
  | nil => rfl
  | cons v t ih => simp [PopArgsLoop, StackPop, ih]

theorem PushArgsLoop_range (Args : List sl_value) (k : Nat) (s : List sl_value) :
    PushArgsLoop Args k s =
      ((List.range k).map (fun i => Args.getD i sl_value.Nil)).reverse ++ s := by
  induction k with
  | zero => simp [PushArgsLoop]
  | succ k ih => simp [PushArgsLoop, List.range_succ, ih, StackPush]

theorem getDmap_eq_take_replicate (Args : List sl_value) (k : Nat) :
    (List.range k).map (fun i => Args.getD i sl_value.Nil) =
      Args.take k ++ List.replicate (k - Args.length) sl_value.Nil := by
  induction k with
  | zero => simp
  | succ k ih =>
    rw [List.range_succ, List.map_append, ih]
    by_cases hk : k < Args.length
    · have h0 : k - Args.length = 0 := Nat.sub_eq_zero_of_le (Nat.le_of_lt hk)
      have h1 : k + 1 - Args.length = 0 := Nat.sub_eq_zero_of_le hk
      have hmap : List.map (fun i => Args.getD i sl_value.Nil) [k] =
          [Args.getD k sl_value.Nil] := rfl
      rw [h0, h1, hmap, List.getD_eq_getElem Args _ hk, List.replicate_zero,
        List.append_nil, List.append_nil, List.take_succ,
        List.getElem?_eq_getElem hk]
      rfl
    · have hk' : Args.length ≤ k := Nat.le_of_not_lt hk
      have h1 : k + 1 - Args.length = (k - Args.length) + 1 := Nat.succ_sub hk'
      have hmap : List.map (fun i => Args.getD i sl_value.Nil) [k] =
          [Args.getD k sl_value.Nil] := rfl
      rw [h1, List.replicate_succ',
        List.take_of_length_le hk', List.take_of_length_le (Nat.le_succ_of_le hk'),
        hmap, List.getD_eq_default _ _ hk', List.append_assoc]

theorem PushArgsLoop_eq (Args : List sl_value) (k : Nat) (s : List sl_value) :
    PushArgsLoop Args k s =
      (Args.take k ++ List.replicate (k - Args.length) sl_value.Nil).reverse ++ s := by
  rw [PushArgsLoop_range, getDmap_eq_take_replicate]

/-- C10: `FuncCall n` on a user function of parameter count `k` pops the `n`
argument values and the callee, then pushes exactly `k` values before the
new frame is entered: the first `min n k` arguments in forward order, and a
Nil for every missing position from `n` to `k-1`; arguments beyond the first
`k` are discarded (source lines 1051-1080). -/
theorem funcCall_arity_adjust (sc : sl_script) (sor : Bool) (vm : sl_vm)
    (f : sl_call_frame) (fs : List sl_call_frame) (code : List Nat)
    (n fi : Nat) (Func : sl_func) (args rest : List sl_value)
    (hfr : vm.Frames = f :: fs)
    (hcode : codeOf sc f.CodeId = some code)
    (hop : code.get? f.CodePtr = some OpCode_FuncCall)
    (harg : code.get? (f.CodePtr + 1) = some n)
    (hstack : vm.Stack = args.reverse ++ sl_value.Func fi :: rest)
    (hlen : args.length = n)
    (hfunc : sc.Funcs.get? fi = some Func) :
    ExecuteStep sc sor vm = some (StepOut.next
      { vm with
          Stack := (args.take Func.ArgCount ++
            List.replicate (Func.ArgCount - n) sl_value.Nil).reverse ++ rest,
          Frames := { Vars := fun _ => sl_value.Nil, Defined := fun _ => false,
                      CodeId := some fi, CodePtr := 0, Coroutine := none } ::
            { f with CodePtr := f.CodePtr + 2 } :: fs }) := by
  have hop' : code[f.CodePtr]? = some OpCode_FuncCall := by simpa using hop
  have harg' : code[f.CodePtr + 1]? = some n := by simpa using harg
  have hfunc' : sc.Funcs[fi]? = some Func := by simpa using hfunc
  have h1 : n = args.reverse.length := by simp [hlen]
  have hpop : PopArgsLoop n vm.Stack = (args, sl_value.Func fi :: rest) := by
    rw [hstack, h1, PopArgsLoop_append, List.reverse_reverse]
  have hstep : ExecuteStep sc sor vm =
      ExecFuncCall sc { vm with Frames := { f with CodePtr := f.CodePtr + 2 } :: fs } n := by
    have h2 : ExecuteStep sc sor vm =
        ExecuteInstr sc sor { vm with Frames := { f with CodePtr := f.CodePtr + 2 } :: fs }
          { f with CodePtr := f.CodePtr + 2 } fs code (f.CodePtr + 2)
          OpCode_FuncCall n := by
      simp [ExecuteStep, hfr, hcode, hop', harg']
    rw [h2, ExecuteInstr_funcCall]
  rw [hstep]
  simp [ExecFuncCall, hpop, hfunc', PushArgsLoop_eq, StackPop, PushCallFrame, hlen]

/-- User function for the C10 witness: two parameters. -/
def fnC10 : sl_func :=
  { Code := [OpCode_Return, 0], StringIndex := 0, ArgCount := 2, Args := [1, 2] }

/-- Script for the C10 witness: `FuncCall 1` then `Halt`. -/
def scC10 : sl_script :=
  { Strings := ["g", "a", "b"], Numbers := [], Funcs := [fnC10],
    Code := [OpCode_FuncCall, 1, OpCode_Halt, 0] }

/-- VM state for the C10 witness: one argument and the callee on the stack. -/
def vmC10 : sl_vm :=
  { Globals := fun _ => none,
    Stack := [sl_value.Number 3, sl_value.Func 0],
    Frames := [frC7], StrRefCount := fun _ => 0 }

/-- C10 witness: calling a 2-parameter function with 1 argument pushes that
argument and one Nil (the Nil for the missing second parameter on top). -/
theorem funcCall_arity_adjust_witness :
    ExecuteStep scC10 false vmC10 = some (StepOut.next
      { vmC10 with
          Stack := ([sl_value.Number 3].take fnC10.ArgCount ++
            List.replicate (fnC10.ArgCount - 1) sl_value.Nil).reverse ++ [],
          Frames := { Vars := fun _ => sl_value.Nil, Defined := fun _ => false,
                      CodeId := some 0, CodePtr := 0, Coroutine := none } ::
            { frC7 with CodePtr := frC7.CodePtr + 2 } :: [] }) ∧
    ([sl_value.Number 3].take fnC10.ArgCount ++
        List.replicate (fnC10.ArgCount - 1) sl_value.Nil).reverse ++ [] =
      [sl_value.Nil, sl_value.Number 3] :=
  ⟨funcCall_arity_adjust scC10 false vmC10 frC7 [] scC10.Code 1 0 fnC10
      [sl_value.Number 3] [] rfl rfl rfl rfl (by decide) rfl rfl,
   by decide⟩


/-! ## Claim C4: definedness vs Nil slots -/

/-- One direction of the claimed biconditional, per frame: every slot never
written by a defining operation (ghost `Defined` still `false`) holds Nil. -/
def UndefNilFrame (f : sl_call_frame) : Prop :=
  ∀ i, f.Defined i = false → f.Vars i = sl_value.Nil

/-- The predicate `UndefNilFrame` holding of every frame of the chain. -/
def UndefNilInv (vm : sl_vm) : Prop :=
  ∀ g ∈ vm.Frames, UndefNilFrame g

/-- Invariant `UndefNilInv` of the state carried by a step outcome (vacuous when the
step leaves the modelled domain). -/
def InvOut : Option StepOut → Prop
  | some o => UndefNilInv (outVm o)
  | none => True

theorem undefNil_setVar (f : sl_call_frame) (i : Nat) (v : sl_value)
    (h : UndefNilFrame f) : UndefNilFrame (setVar f i v) := by
  intro j hj
  by_cases hji : j = i
  · subst hji
    simp [setVar, Function.update_same] at hj
  · rw [setVar] at hj
    simp only [Function.update_noteq hji] at hj
    simp only [setVar, Function.update_noteq hji]
    exact h j hj

theorem undefNil_advance (f : sl_call_frame) (p : Nat) (h : UndefNilFrame f) :
    UndefNilFrame { f with CodePtr := p } :=
  fun i hi => h i hi

theorem undefNil_fresh (CodeId : Option Nat) (Co : Option Nat) :
    UndefNilFrame { Vars := fun _ => sl_value.Nil, Defined := fun _ => false,
                    CodeId := CodeId, CodePtr := 0, Coroutine := Co } :=
  fun _ _ => rfl

theorem undefNil_cons (f : sl_call_frame) (fs : List sl_call_frame)
    (hf : UndefNilFrame f) (hfs : ∀ g ∈ fs, UndefNilFrame g) :
    ∀ g ∈ f :: fs, UndefNilFrame g := by
  intro g hg
  rcases List.mem_cons.mp hg with hg | hg
  · exact hg ▸ hf
  · exact hfs g hg

theorem undefNil_SetWalk (Arg : Nat) (fs : List sl_call_frame)
    (s : List sl_value) (h : ∀ g ∈ fs, UndefNilFrame g) :
    ∀ g ∈ (SetWalk Arg fs s).1, UndefNilFrame g := by
  induction fs generalizing s with
  | nil => simp [SetWalk]
  | cons f rest ih =>
    have hf := h f (List.mem_cons_self f rest)
    have hr : ∀ g ∈ rest, UndefNilFrame g :=
      fun g hg => h g (List.mem_cons_of_mem _ hg)
    by_cases hc : f.Vars Arg = sl_value.Nil
    · have hfold : (SetWalk Arg (f :: rest) s).1 =
          f :: (SetWalk Arg rest s).1 := by
        simp [SetWalk, hc]
      rw [hfold]
      exact undefNil_cons _ _ hf (ih s hr)
    · have hfold : (SetWalk Arg (f :: rest) s).1 =
          setVar f Arg (StackPop s).1 :: (SetWalk Arg rest (StackPop s).2).1 := by
        simp [SetWalk, hc]
      rw [hfold]
      exact undefNil_cons _ _ (undefNil_setVar f Arg _ hf) (ih (StackPop s).2 hr)

/-- Script used by the C4 counterexample: `Def 0` then `Halt`. -/
def scC4 : sl_script :=
  { Strings := ["x"], Numbers := [], Funcs := [],
    Code := [OpCode_Def, 0, OpCode_Halt, 0] }

/-- VM state for the C4 counterexample: one fresh frame, EMPTY operand
stack, so `Def` pops the underflow default Nil. -/
def vmC4 : sl_vm :=
  { Globals := fun _ => none, Stack := [], Frames := [frC7],
    StrRefCount := fun _ => 0 }

/-- C4 counterexample: starting from a state satisfying the claimed
biconditional (fresh frame: slot 0 is Nil and undefined), executing `Def 0`
with Nil as the popped value leaves `Vars[0]` Nil even though `Def` has now
defined variable 0 in that frame — so "Vars[i] is Nil iff variable i has not
been defined" is NOT preserved by every instruction (`Def`, `Defonce` and
`Set` store whatever value is popped, including Nil; source lines 940-944). -/
theorem def_nil_breaks_defined_biconditional :
    (frC7.Vars 0 = sl_value.Nil ∧ frC7.Defined 0 = false) ∧
    varOfFrame (ExecuteStep scC4 false vmC4) 0 0 = some sl_value.Nil ∧
    definedOfFrame (ExecuteStep scC4 false vmC4) 0 0 = some true := by
  refine ⟨⟨rfl, rfl⟩, ?_, ?_⟩ <;> decide

theorem invOut_ExecDef (vm' : sl_vm) (Frame' : sl_call_frame)
    (Parents : List sl_call_frame) (Arg : Nat)
    (hf : UndefNilFrame Frame') (hp : ∀ g ∈ Parents, UndefNilFrame g) :
    InvOut (ExecDef vm' Frame' Parents Arg) :=
  undefNil_cons _ _ (undefNil_setVar _ _ _ hf) hp

theorem invOut_ExecDefonce (vm' : sl_vm) (Frame' : sl_call_frame)
    (Parents : List sl_call_frame) (Arg : Nat)
    (hf : UndefNilFrame Frame') (hp : ∀ g ∈ Parents, UndefNilFrame g)
    (hvm : ∀ g ∈ vm'.Frames, UndefNilFrame g) :
    InvOut (ExecDefonce vm' Frame' Parents Arg) := by
  by_cases hc : Frame'.Vars Arg = sl_value.Nil
  · rw [ExecDefonce, if_pos hc]
    exact undefNil_cons _ _ (undefNil_setVar _ _ _ hf) hp
  · rw [ExecDefonce, if_neg hc]
    exact hvm

theorem invOut_ExecSet (sc : sl_script) (vm' : sl_vm) (Arg : Nat)
    (hvm : ∀ g ∈ vm'.Frames, UndefNilFrame g) :
    InvOut (ExecSet sc vm' Arg) := by
  rw [ExecSet]
  by_cases hw : (SetWalk Arg vm'.Frames vm'.Stack).2.2
  · rw [if_pos hw]
    exact undefNil_SetWalk Arg _ vm'.Stack hvm
  · rw [if_neg hw]
    cases sc.Strings.get? Arg with
    | none => trivial
    | some name => exact hvm

theorem invOut_ExecDefun (sc : sl_script) (vm' : sl_vm) (Frame' : sl_call_frame)
    (Parents : List sl_call_frame) (Arg : Nat)
    (hf : UndefNilFrame Frame') (hp : ∀ g ∈ Parents, UndefNilFrame g) :
    InvOut (ExecDefun sc vm' Frame' Parents Arg) := by
  rw [ExecDefun]
  cases sc.Funcs.get? Arg with
  | none => trivial
  | some Func => exact undefNil_cons _ _ (undefNil_setVar _ _ _ hf) hp

theorem invOut_ExecLoadBool (vm' : sl_vm) (Arg : Nat)
    (hvm : ∀ g ∈ vm'.Frames, UndefNilFrame g) :
    InvOut (ExecLoadBool vm' Arg) :=
  hvm

theorem invOut_ExecLoadNumber (sc : sl_script) (vm' : sl_vm) (Arg : Nat)
    (hvm : ∀ g ∈ vm'.Frames, UndefNilFrame g) :
    InvOut (ExecLoadNumber sc vm' Arg) := by
  rw [ExecLoadNumber]
  cases sc.Numbers.get? Arg with
  | none => trivial
  | some num => exact hvm

theorem invOut_ExecLoadString (sc : sl_script) (vm' : sl_vm) (Arg : Nat)
    (hvm : ∀ g ∈ vm'.Frames, UndefNilFrame g) :
    InvOut (ExecLoadString sc vm' Arg) := by
  rw [ExecLoadString]
  by_cases hb : Arg < sc.Strings.length
  · rw [if_pos hb]
    exact hvm
  · rw [if_neg hb]
    trivial

theorem invOut_ExecLoadSymbol (sc : sl_script) (vm' : sl_vm) (Arg : Nat)
    (hvm : ∀ g ∈ vm'.Frames, UndefNilFrame g) :
    InvOut (ExecLoadSymbol sc vm' Arg) := by
  by_cases hw : (LoadSymbolWalk Arg vm'.Frames vm'.Stack).2
  · rw [ExecLoadSymbol, if_pos hw]
    exact hvm
  · cases hS : sc.Strings.get? Arg with
    | none =>
      have hS' : sc.Strings[Arg]? = none := by simpa using hS
      simp [ExecLoadSymbol, hw, hS', InvOut]
    | some name =>
      cases hG : vm'.Globals name with
      | some v =>
        simp only [ExecLoadSymbol, hw, hS, hG, Bool.false_eq_true, if_false]
        exact hvm
      | none =>
        simp only [ExecLoadSymbol, hw, hS, hG, Bool.false_eq_true, if_false]
        exact hvm

theorem invOut_ExecLoadFunc (sc : sl_script) (vm' : sl_vm) (Arg : Nat)
    (hvm : ∀ g ∈ vm'.Frames, UndefNilFrame g) :
    InvOut (ExecLoadFunc sc vm' Arg) := by
  rw [ExecLoadFunc]
  cases sc.Funcs.get? Arg with
  | none => trivial
  | some Func => exact hvm

theorem invOut_ExecFuncCall (sc : sl_script) (vm' : sl_vm) (Arg : Nat)
    (hvm : ∀ g ∈ vm'.Frames, UndefNilFrame g) :
    InvOut (ExecFuncCall sc vm' Arg) := by
  cases hpf : (StackPop (PopArgsLoop Arg vm'.Stack).2).1 with
  | Nil => simp only [ExecFuncCall, hpf]; exact hvm
  | Bool b => simp only [ExecFuncCall, hpf]; exact hvm
  | Number bits => simp only [ExecFuncCall, hpf]; exact hvm
  | String sid => simp only [ExecFuncCall, hpf]; exact hvm
  | Func fi =>
    cases hU : sc.Funcs.get? fi with
    | none =>
      have hU' : sc.Funcs[fi]? = none := by simpa using hU
      simp [ExecFuncCall, hpf, hU', InvOut]
    | some Func =>
      simp only [ExecFuncCall, hpf, hU]
      exact undefNil_cons _ _ (undefNil_fresh (some fi) none) hvm
  | NativeFunc nid => simp [ExecFuncCall, hpf, InvOut]
  | Coroutine cid => simp only [ExecFuncCall, hpf]; exact hvm
  | Custom pid => simp only [ExecFuncCall, hpf]; exact hvm

theorem invOut_ExecReturn (StopOnReturn : Bool) (vm' : sl_vm)
    (Parents : List sl_call_frame) (hp : ∀ g ∈ Parents, UndefNilFrame g) :
    InvOut (ExecReturn StopOnReturn vm' Parents) := by
  rw [ExecReturn]
  cases StopOnReturn with
  | true => exact hp
  | false => exact hp

theorem invOut_ExecPop (vm' : sl_vm) (code : List Nat) (PeekPtr : Nat)
    (hvm : ∀ g ∈ vm'.Frames, UndefNilFrame g) :
    InvOut (ExecPop vm' code PeekPtr) := by
  rw [ExecPop]
  cases code.get? PeekPtr with
  | none => trivial
  | some nextOp =>
    by_cases hr : nextOp = OpCode_Return
    · simp only [hr, ne_eq, not_true_eq_false, if_false]
      exact hvm
    · simp only [ne_eq, hr, not_false_eq_true, if_true]
      exact hvm

theorem invOut_ExecuteInstr (sc : sl_script) (StopOnReturn : Bool)
    (vm' : sl_vm) (Frame' : sl_call_frame) (Parents : List sl_call_frame)
    (code : List Nat) (PeekPtr : Nat) (op Arg : Nat)
    (hf : UndefNilFrame Frame') (hp : ∀ g ∈ Parents, UndefNilFrame g)
    (hvm : ∀ g ∈ vm'.Frames, UndefNilFrame g) :
    InvOut (ExecuteInstr sc StopOnReturn vm' Frame' Parents code PeekPtr op Arg) := by
  rw [ExecuteInstr]
  by_cases h1 : op = OpCode_Def
  · rw [if_pos h1]
    exact invOut_ExecDef vm' Frame' Parents Arg hf hp
  rw [if_neg h1]
  by_cases h2 : op = OpCode_Defonce
  · rw [if_pos h2]
    exact invOut_ExecDefonce vm' Frame' Parents Arg hf hp hvm
  rw [if_neg h2]
  by_cases h3 : op = OpCode_Set
  · rw [if_pos h3]
    exact invOut_ExecSet sc vm' Arg hvm
  rw [if_neg h3]
  by_cases h4 : op = OpCode_Defun
  · rw [if_pos h4]
    exact invOut_ExecDefun sc vm' Frame' Parents Arg hf hp
  rw [if_neg h4]
  by_cases h5 : op = OpCode_LoadBool
  · rw [if_pos h5]
    exact invOut_ExecLoadBool vm' Arg hvm
  rw [if_neg h5]
  by_cases h6 : op = OpCode_LoadNumber
  · rw [if_pos h6]
    exact invOut_ExecLoadNumber sc vm' Arg hvm
  rw [if_neg h6]
  by_cases h7 : op = OpCode_LoadString
  · rw [if_pos h7]
    exact invOut_ExecLoadString sc vm' Arg hvm
  rw [if_neg h7]
  by_cases h8 : op = OpCode_LoadSymbol
  · rw [if_pos h8]
    exact invOut_ExecLoadSymbol sc vm' Arg hvm
  rw [if_neg h8]
  by_cases h9 : op = OpCode_LoadFunc
  · rw [if_pos h9]
    exact invOut_ExecLoadFunc sc vm' Arg hvm
  rw [if_neg h9]
  by_cases h10 : op = OpCode_FuncCall
  · rw [if_pos h10]
    exact invOut_ExecFuncCall sc vm' Arg hvm
  rw [if_neg h10]
  by_cases h11 : op = OpCode_Return
  · rw [if_pos h11]
    exact invOut_ExecReturn StopOnReturn vm' Parents hp
  rw [if_neg h11]
  by_cases h12 : op = OpCode_Pop
  · rw [if_pos h12]
    exact invOut_ExecPop vm' code PeekPtr hvm
  rw [if_neg h12]
  by_cases h13 : op = OpCode_Halt
  · rw [if_pos h13]
    exact hvm
  rw [if_neg h13]
  exact hvm

/-- C4 (amended): only one direction of the biconditional holds and is
preserved by every modelled instruction: a slot that no defining operation
(`Def`, `Defonce`, `Set`, `Defun`, or the `Def`-compiled argument bindings)
has written since its frame was created is still Nil.  The converse fails
(see the counterexample): a variable defined with value Nil leaves its slot
Nil. -/
theorem undefined_slots_nil_preserved (sc : sl_script) (sor : Bool)
    (vm : sl_vm) (hinv : UndefNilInv vm) : InvOut (ExecuteStep sc sor vm) := by
  rcases hE : vm.Frames with _ | ⟨Frame, Parents⟩
  · simp [ExecuteStep, hE, InvOut]
  have hF : UndefNilFrame Frame :=
    hinv Frame (by rw [hE]; exact List.mem_cons_self _ _)
  have hP : ∀ g ∈ Parents, UndefNilFrame g :=
    fun g hg => hinv g (by rw [hE]; exact List.mem_cons_of_mem _ hg)
  have hF' : UndefNilFrame { Frame with CodePtr := Frame.CodePtr + 2 } :=
    undefNil_advance _ _ hF
  cases hC : codeOf sc Frame.CodeId with
  | none => simp [ExecuteStep, hE, hC, InvOut]
  | some code =>
  cases hOp : code[Frame.CodePtr]? with
  | none => simp [ExecuteStep, hE, hC, hOp, InvOut]
  | some op =>
  cases hArg : code[Frame.CodePtr + 1]? with
  | none => simp [ExecuteStep, hE, hC, hOp, hArg, InvOut]
  | some Arg =>
  have hstep : ExecuteStep sc sor vm =
      ExecuteInstr sc sor
        { vm with Frames := { Frame with CodePtr := Frame.CodePtr + 2 } :: Parents }
        { Frame with CodePtr := Frame.CodePtr + 2 } Parents code
        (Frame.CodePtr + 2) op Arg := by
    simp [ExecuteStep, hE, hC, hOp, hArg]
  rw [hstep]
  exact invOut_ExecuteInstr sc sor _ _ Parents code (Frame.CodePtr + 2) op Arg
    hF' hP (undefNil_cons _ _ hF' hP)

/-- C4 witness: the preserved direction applied to the concrete `Def`-of-Nil
state of the counterexample. -/
theorem undefined_slots_nil_preserved_witness :
    InvOut (ExecuteStep scC4 false vmC4) :=
  undefined_slots_nil_preserved scC4 false vmC4 (by
    intro g hg
    have hg' : g = frC7 := by simpa [vmC4] using hg
    subst hg'
    intro i _
    rfl)

end SimpleLisp
